import Mathlib

/-
Shallow embedding of the piston-position solver of this repository.
Floating-point scalars are modelled by real numbers; glm vector
operations are modelled componentwise.  Two variants of the solver are
embedded: the pure one (namespace Piston, from piston.cpp) and the
stateful one (namespace Stateful, from the unnamed source file), both
transcribed from the source.
-/

noncomputable section

/-- Tolerance used by the source for near-zero tests: EPSILON = 0.001. -/
def EPSILON : ℝ := 0.001

/-- Source helper: is_zero(a) holds when abs(a) < EPSILON. -/
def is_zero (a : ℝ) : Prop := |a| < EPSILON

instance (a : ℝ) : Decidable (is_zero a) :=
  inferInstanceAs (Decidable (|a| < EPSILON))

/-- Source helper: square(a) = a * a. -/
def square (a : ℝ) : ℝ := a * a

/-- Two-dimensional vector (glm vec2), embedded over the reals. -/
structure vec2 where
  x : ℝ
  y : ℝ

/-- Componentwise vector addition. -/
def vec2.add (u v : vec2) : vec2 := ⟨u.x + v.x, u.y + v.y⟩

/-- Componentwise vector subtraction. -/
def vec2.sub (u v : vec2) : vec2 := ⟨u.x - v.x, u.y - v.y⟩

/-- Vector times scalar, componentwise (glm v * t). -/
def vec2.smul (v : vec2) (t : ℝ) : vec2 := ⟨v.x * t, v.y * t⟩

/-- Euclidean length of a vector (glm length). -/
def vec2.length (v : vec2) : ℝ := Real.sqrt (v.x ^ 2 + v.y ^ 2)

/-- glm normalize: the vector divided by its Euclidean length. -/
def vec2.normalize (v : vec2) : vec2 := ⟨v.x / v.length, v.y / v.length⟩

namespace Piston

/-- Crankshaft parameters (piston.cpp struct engine::crankshaft). -/
structure crankshaft where
  crank_radius : ℝ
  angle : ℝ

/-- Cylinder parameters: a 2D ray given by origin and an (unnormalized)
direction (piston.cpp struct engine::cylinder). -/
structure cylinder where
  origin : vec2
  direction : vec2

/-- Engine parameter record (piston.cpp struct engine). -/
structure engine where
  crank : crankshaft
  cylinder : cylinder
  connecting_rod_length : ℝ

/-- Result of the solver: a validity flag plus a position value
(piston.cpp struct piston_position). -/
structure piston_position where
  is_valid : Bool
  value : vec2

/-- piston_position::invalid(). -/
def piston_position.invalid : piston_position := ⟨false, ⟨0, 0⟩⟩

/-- piston_position::valid(position). -/
def piston_position.valid (position : vec2) : piston_position := ⟨true, position⟩

/-- Leading quadratic coefficient from piston.cpp:
a = square(dx) + square(dy), with (dx, dy) = normalize(direction). -/
def coef_a (e : engine) : ℝ :=
  square (vec2.normalize e.cylinder.direction).x + square (vec2.normalize e.cylinder.direction).y

/-- Linear quadratic coefficient from piston.cpp:
b = 2 * (lx * dx + ly * dy - r * dx * cos(alpha) - r * dy * sin(alpha)). -/
def coef_b (e : engine) : ℝ :=
  2 * (e.cylinder.origin.x * (vec2.normalize e.cylinder.direction).x
     + e.cylinder.origin.y * (vec2.normalize e.cylinder.direction).y
     - e.crank.crank_radius * (vec2.normalize e.cylinder.direction).x * Real.cos e.crank.angle
     - e.crank.crank_radius * (vec2.normalize e.cylinder.direction).y * Real.sin e.crank.angle)

/-- Constant quadratic coefficient from piston.cpp:
c = square(lx) + square(ly) - 2*r*lx*cos(alpha) - 2*r*ly*sin(alpha)
    - square(rcr) + square(r). -/
def coef_c (e : engine) : ℝ :=
  square e.cylinder.origin.x + square e.cylinder.origin.y
    - 2 * e.crank.crank_radius * e.cylinder.origin.x * Real.cos e.crank.angle
    - 2 * e.crank.crank_radius * e.cylinder.origin.y * Real.sin e.crank.angle
    - square e.connecting_rod_length + square e.crank.crank_radius

/-- discriminant = square(b) - 4 * a * c. -/
def discriminant (e : engine) : ℝ := square (coef_b e) - 4 * coef_a e * coef_c e

/-- divisor = 2 * a. -/
def divisor (e : engine) : ℝ := 2 * coef_a e

/-- Root chosen by the source: t = (-b + sqrt(discriminant)) / divisor. -/
def root_t (e : engine) : ℝ :=
  (-(coef_b e) + Real.sqrt (discriminant e)) / divisor e

/-- piston_position::calculate from piston.cpp: reject when is_zero(divisor)
or discriminant < 0, otherwise return valid(origin + direction * t). -/
def piston_position.calculate (e : engine) : piston_position :=
  if is_zero (divisor e) then piston_position.invalid
  else if discriminant e < 0 then piston_position.invalid
  else piston_position.valid
    (vec2.add e.cylinder.origin (vec2.smul (vec2.normalize e.cylinder.direction) (root_t e)))

end Piston

namespace Stateful

/-- Crankshaft state of the stateful variant: radius, cached crankpin
position and current angle. -/
structure crankshaft where
  crank_radius : ℝ
  crankpin_position : vec2
  angle : ℝ

/-- Cylinder parameters of the stateful variant. -/
structure cylinder where
  origin : vec2
  direction : vec2

/-- Cached piston result of the stateful variant.  The source field named
exists (a Lean keyword) is embedded as exists_flag. -/
structure piston where
  position : vec2
  exists_flag : Bool

/-- Full engine state of the stateful variant. -/
structure engine where
  crankshaft : crankshaft
  cylinder : cylinder
  piston : piston
  connecting_rod_length : ℝ

/-- Leading coefficient a = square(dx) + square(dy) of the stateful variant. -/
def coef_a (s : engine) : ℝ :=
  square (vec2.normalize s.cylinder.direction).x + square (vec2.normalize s.cylinder.direction).y

/-- Linear coefficient of the stateful variant, written with the factored
rcos = r * cos(alpha) and rsin = r * sin(alpha) as in the source:
b = 2 * (lx * dx + ly * dy - dx * rcos - dy * rsin). -/
def coef_b (s : engine) : ℝ :=
  2 * (s.cylinder.origin.x * (vec2.normalize s.cylinder.direction).x
     + s.cylinder.origin.y * (vec2.normalize s.cylinder.direction).y
     - (vec2.normalize s.cylinder.direction).x * (s.crankshaft.crank_radius * Real.cos s.crankshaft.angle)
     - (vec2.normalize s.cylinder.direction).y * (s.crankshaft.crank_radius * Real.sin s.crankshaft.angle))

/-- Constant coefficient of the stateful variant:
c = square(lx) + square(ly) - 2*lx*rcos - 2*ly*rsin - square(rcr) + square(r). -/
def coef_c (s : engine) : ℝ :=
  square s.cylinder.origin.x + square s.cylinder.origin.y
    - 2 * s.cylinder.origin.x * (s.crankshaft.crank_radius * Real.cos s.crankshaft.angle)
    - 2 * s.cylinder.origin.y * (s.crankshaft.crank_radius * Real.sin s.crankshaft.angle)
    - square s.connecting_rod_length + square s.crankshaft.crank_radius

/-- discriminant = square(b) - 4 * a * c of the stateful variant. -/
def discriminant (s : engine) : ℝ := square (coef_b s) - 4 * coef_a s * coef_c s

/-- divisor = 2 * a of the stateful variant. -/
def divisor (s : engine) : ℝ := 2 * coef_a s

/-- Root t = (-b + sqrt(discriminant)) / divisor of the stateful variant. -/
def root_t (s : engine) : ℝ :=
  (-(coef_b s) + Real.sqrt (discriminant s)) / divisor s

/-- engine::calculate_positions of the stateful variant: first stores the
crankpin position into the state, then on rejection only clears the
piston exists flag, and on success stores the position and sets the flag. -/
def engine.calculate_positions (s : engine) : engine :=
  let s1 : engine :=
    { s with crankshaft :=
        { s.crankshaft with crankpin_position :=
            ⟨Real.cos s.crankshaft.angle * s.crankshaft.crank_radius,
             Real.sin s.crankshaft.angle * s.crankshaft.crank_radius⟩ } }
  if is_zero (divisor s) then
    { s1 with piston := { s1.piston with exists_flag := false } }
  else if discriminant s < 0 then
    { s1 with piston := { s1.piston with exists_flag := false } }
  else
    { s1 with piston :=
        { position := vec2.add s.cylinder.origin
            (vec2.smul (vec2.normalize s.cylinder.direction) (root_t s)),
          exists_flag := true } }

end Stateful

/-- A nonzero vector has positive squared length. -/
lemma vec2.sum_sq_pos (v : vec2) (h : v ≠ vec2.mk 0 0) : 0 < v.x ^ 2 + v.y ^ 2 := by
  rcases v with ⟨vx, vy⟩
  by_cases hx : vx = 0
  · have hy : vy ≠ 0 := by
      intro hy
      exact h (by simp [hx, hy])
    have h1 : 0 < vy ^ 2 := by positivity
    have h2 : (0:ℝ) ≤ vx ^ 2 := sq_nonneg vx
    simp only
    linarith
  · have h1 : 0 < vx ^ 2 := by positivity
    have h2 : (0:ℝ) ≤ vy ^ 2 := sq_nonneg vy
    simp only
    linarith

/-- Normalizing a nonzero vector yields a unit vector. -/
lemma vec2.normalize_sq (v : vec2) (h : v ≠ vec2.mk 0 0) :
    (vec2.normalize v).x ^ 2 + (vec2.normalize v).y ^ 2 = 1 := by
  have hpos := vec2.sum_sq_pos v h
  have hlen : v.length ^ 2 = v.x ^ 2 + v.y ^ 2 := Real.sq_sqrt hpos.le
  simp only [vec2.normalize]
  rw [div_pow, div_pow, div_add_div_same, hlen]
  exact div_self (ne_of_gt hpos)

/-- The leading coefficient of the pure solver is exactly 1 for a
nonzero direction vector. -/
lemma Piston.coef_a_eq_one (e : Piston.engine)
    (hD : e.cylinder.direction ≠ vec2.mk 0 0) : Piston.coef_a e = 1 := by
  have := vec2.normalize_sq e.cylinder.direction hD
  simp only [Piston.coef_a, square]
  nlinarith [this]

/-- The root selected by the pure solver satisfies the quadratic equation
when the leading coefficient is 1 and the discriminant is nonnegative. -/
lemma Piston.root_quadratic (e : Piston.engine)
    (ha : Piston.coef_a e = 1) (hd : 0 ≤ Piston.discriminant e) :
    (Piston.root_t e) ^ 2 + Piston.coef_b e * Piston.root_t e + Piston.coef_c e = 0 := by
  have hs : Real.sqrt (Piston.discriminant e) ^ 2 = Piston.discriminant e :=
    Real.sq_sqrt hd
  have hdisc : Piston.discriminant e = (Piston.coef_b e) ^ 2 - 4 * Piston.coef_c e := by
    simp only [Piston.discriminant, square, ha]
    ring
  rw [Piston.root_t, Piston.divisor, ha]
  have hs2 : Real.sqrt (Piston.discriminant e) ^ 2
      = (Piston.coef_b e) ^ 2 - 4 * Piston.coef_c e := by rw [hs, hdisc]
  field_simp
  nlinarith [hs2]

/-- Auxiliary: a real equals the square root of its square. -/
lemma sqrt_eq_of_eq_sq (X L : ℝ) (hL : 0 ≤ L) (h : X = L ^ 2) : Real.sqrt X = L := by
  rw [h]
  exact Real.sqrt_sq hL

/-- C1: whenever the pure solver returns a valid result (with positive
crank radius, positive rod length and a nonzero direction vector), the
returned position lies on the cylinder axis through the origin along the
normalized direction, and its distance from the crankpin
(r cos alpha, r sin alpha) is exactly the connecting-rod length. -/
theorem claim_C1 (e : Piston.engine)
    (hr : 0 < e.crank.crank_radius)
    (hL : 0 < e.connecting_rod_length)
    (hD : e.cylinder.direction ≠ vec2.mk 0 0)
    (hv : (Piston.piston_position.calculate e).is_valid = true) :
    (∃ t : ℝ, (Piston.piston_position.calculate e).value
        = vec2.add e.cylinder.origin (vec2.smul (vec2.normalize e.cylinder.direction) t))
    ∧ vec2.length (vec2.sub (Piston.piston_position.calculate e).value
        (vec2.mk (e.crank.crank_radius * Real.cos e.crank.angle)
                 (e.crank.crank_radius * Real.sin e.crank.angle)))
      = e.connecting_rod_length := by
  by_cases h1 : is_zero (Piston.divisor e)
  · rw [Piston.piston_position.calculate, if_pos h1] at hv
    simp [Piston.piston_position.invalid] at hv
  by_cases h2 : Piston.discriminant e < 0
  · rw [Piston.piston_position.calculate, if_neg h1, if_pos h2] at hv
    simp [Piston.piston_position.invalid] at hv
  have hcalc : Piston.piston_position.calculate e
      = Piston.piston_position.valid
          (vec2.add e.cylinder.origin
            (vec2.smul (vec2.normalize e.cylinder.direction) (Piston.root_t e))) := by
    rw [Piston.piston_position.calculate, if_neg h1, if_neg h2]
  have ha : Piston.coef_a e = 1 := Piston.coef_a_eq_one e hD
  have hd : 0 ≤ Piston.discriminant e := le_of_not_lt h2
  have hroot := Piston.root_quadratic e ha hd
  have ha2 := vec2.normalize_sq e.cylinder.direction hD
  have hpyth := Real.cos_sq_add_sin_sq e.crank.angle
  constructor
  · exact ⟨Piston.root_t e, by rw [hcalc]; rfl⟩
  · rw [hcalc]
    simp only [Piston.piston_position.valid, vec2.add, vec2.sub, vec2.smul, vec2.length]
    apply sqrt_eq_of_eq_sq _ _ hL.le
    simp only [Piston.coef_b, Piston.coef_c, square] at hroot
    linear_combination hroot + (Piston.root_t e) ^ 2 * ha2
      + (e.crank.crank_radius) ^ 2 * hpyth

/-- Length of a vertical vector with nonnegative second component. -/
lemma vec2.length_vert (c : ℝ) (hc : 0 ≤ c) : vec2.length (vec2.mk 0 c) = c := by
  show Real.sqrt ((0:ℝ) ^ 2 + c ^ 2) = c
  rw [show (0:ℝ) ^ 2 + c ^ 2 = c ^ 2 by ring]
  exact Real.sqrt_sq hc

/-- Normalizing a vertical vector with positive second component gives (0, 1). -/
lemma vec2.normalize_vert (c : ℝ) (hc : 0 < c) :
    vec2.normalize (vec2.mk 0 c) = vec2.mk 0 1 := by
  simp only [vec2.normalize, vec2.length_vert c hc.le, vec2.mk.injEq]
  exact ⟨zero_div c, div_self hc.ne'⟩

/-- Concrete engine used as a witness input: crank radius 50, angle 0,
cylinder origin (0, 0), direction (0, 1), rod length 100. -/
def e1 : Piston.engine := ⟨⟨50, 0⟩, ⟨⟨0, 0⟩, ⟨0, 1⟩⟩, 100⟩

/-- Coefficient values of the pure solver at the witness engine e1. -/
lemma e1_coefs : Piston.coef_a e1 = 1 ∧ Piston.coef_b e1 = 0 ∧ Piston.coef_c e1 = -7500 := by
  have hn : vec2.normalize (vec2.mk 0 1) = vec2.mk 0 1 := vec2.normalize_vert 1 one_pos
  refine ⟨?_, ?_, ?_⟩ <;>
    simp [Piston.coef_a, Piston.coef_b, Piston.coef_c, square, e1, hn,
      Real.cos_zero, Real.sin_zero] <;> norm_num

/-- The pure solver accepts the witness engine e1. -/
lemma e1_valid : (Piston.piston_position.calculate e1).is_valid = true := by
  obtain ⟨ha, hb, hc⟩ := e1_coefs
  have hdiv : Piston.divisor e1 = 2 := by rw [Piston.divisor, ha]; norm_num
  have hdisc : Piston.discriminant e1 = 30000 := by
    rw [Piston.discriminant, ha, hb, hc]; norm_num [square]
  rw [Piston.piston_position.calculate, if_neg, if_neg]
  · rfl
  · rw [hdisc]; norm_num
  · rw [hdiv, is_zero, EPSILON]; norm_num

/-- C1 witness: the theorem instantiated at the concrete engine e1. -/
theorem claim_C1_witness :
    (∃ t : ℝ, (Piston.piston_position.calculate e1).value
        = vec2.add e1.cylinder.origin (vec2.smul (vec2.normalize e1.cylinder.direction) t))
    ∧ vec2.length (vec2.sub (Piston.piston_position.calculate e1).value
        (vec2.mk (e1.crank.crank_radius * Real.cos e1.crank.angle)
                 (e1.crank.crank_radius * Real.sin e1.crank.angle)))
      = e1.connecting_rod_length :=
  claim_C1 e1 (by norm_num [e1]) (by norm_num [e1])
    (by simp [e1, vec2.mk.injEq]) e1_valid

/-- The leading coefficient of the pure solver is always 0 or 1. -/
lemma Piston.coef_a_cases (e : Piston.engine) :
    Piston.coef_a e = 0 ∨ Piston.coef_a e = 1 := by
  by_cases hD : e.cylinder.direction = vec2.mk 0 0
  · left
    simp [Piston.coef_a, hD, vec2.normalize, square]
  · right
    exact Piston.coef_a_eq_one e hD

/-- If the solver does not reject on the near-zero divisor test, the
leading coefficient is exactly 1. -/
lemma Piston.coef_a_of_not_zero (e : Piston.engine)
    (h : ¬ is_zero (Piston.divisor e)) : Piston.coef_a e = 1 := by
  rcases Piston.coef_a_cases e with h0 | h1
  · exfalso
    apply h
    rw [Piston.divisor, h0, is_zero, EPSILON]
    norm_num
  · exact h1

/-- C2: the pure solver computes the quadratic coefficients exactly as the
specification formulas state them (with d the normalized direction), and in
the non-rejecting case it returns valid(origin + t * d) with t the plus
branch of the quadratic formula, which is at least the minus branch. -/
theorem claim_C2 (e : Piston.engine) :
    Piston.coef_a e
      = (vec2.normalize e.cylinder.direction).x ^ 2
        + (vec2.normalize e.cylinder.direction).y ^ 2
    ∧ Piston.coef_b e
      = 2 * (e.cylinder.origin.x * (vec2.normalize e.cylinder.direction).x
           + e.cylinder.origin.y * (vec2.normalize e.cylinder.direction).y
           - e.crank.crank_radius * (vec2.normalize e.cylinder.direction).x
               * Real.cos e.crank.angle
           - e.crank.crank_radius * (vec2.normalize e.cylinder.direction).y
               * Real.sin e.crank.angle)
    ∧ Piston.coef_c e
      = e.cylinder.origin.x ^ 2 + e.cylinder.origin.y ^ 2
        - 2 * e.crank.crank_radius * e.cylinder.origin.x * Real.cos e.crank.angle
        - 2 * e.crank.crank_radius * e.cylinder.origin.y * Real.sin e.crank.angle
        - e.connecting_rod_length ^ 2 + e.crank.crank_radius ^ 2
    ∧ (¬ (is_zero (Piston.divisor e) ∨ Piston.discriminant e < 0) →
        Piston.piston_position.calculate e
          = Piston.piston_position.valid
              (vec2.add e.cylinder.origin
                (vec2.smul (vec2.normalize e.cylinder.direction)
                  ((-(Piston.coef_b e) + Real.sqrt (Piston.discriminant e))
                    / (2 * Piston.coef_a e))))
        ∧ (-(Piston.coef_b e) - Real.sqrt (Piston.discriminant e))
            / (2 * Piston.coef_a e)
          ≤ (-(Piston.coef_b e) + Real.sqrt (Piston.discriminant e))
            / (2 * Piston.coef_a e)) := by
  refine ⟨by simp [Piston.coef_a, square]; ring, by simp [Piston.coef_b], ?_, ?_⟩
  · simp [Piston.coef_c, square]; ring
  · intro h
    push_neg at h
    obtain ⟨h1, h2⟩ := h
    have ha : Piston.coef_a e = 1 := Piston.coef_a_of_not_zero e h1
    constructor
    · rw [Piston.piston_position.calculate, if_neg h1, if_neg (not_lt.mpr h2)]
      rfl
    · have hs : 0 ≤ Real.sqrt (Piston.discriminant e) := Real.sqrt_nonneg _
      rw [ha]
      have h01 : (0:ℝ) < 2 * 1 := by norm_num
      exact (div_le_div_right h01).mpr (by linarith)

/-- The witness engine e1 passes both rejection tests of the pure solver. -/
lemma e1_not_rejected :
    ¬ (is_zero (Piston.divisor e1) ∨ Piston.discriminant e1 < 0) := by
  obtain ⟨ha, hb, hc⟩ := e1_coefs
  rintro (h | h)
  · rw [Piston.divisor, ha, is_zero, EPSILON] at h
    norm_num at h
  · rw [Piston.discriminant, ha, hb, hc] at h
    norm_num [square] at h

/-- C2 witness: the plus-branch result obtained at the concrete engine e1. -/
theorem claim_C2_witness :
    ¬ (is_zero (Piston.divisor e1) ∨ Piston.discriminant e1 < 0)
    ∧ Piston.piston_position.calculate e1
        = Piston.piston_position.valid
            (vec2.add e1.cylinder.origin
              (vec2.smul (vec2.normalize e1.cylinder.direction)
                ((-(Piston.coef_b e1) + Real.sqrt (Piston.discriminant e1))
                  / (2 * Piston.coef_a e1)))) :=
  ⟨e1_not_rejected, ((claim_C2 e1).2.2.2 e1_not_rejected).1⟩

/-- The near-zero test on the divisor 2a is equivalent to the same test on
the coefficient a itself, because a is always 0 or 1 here. -/
lemma Piston.zero_test_iff (e : Piston.engine) :
    is_zero (Piston.divisor e) ↔ |Piston.coef_a e| < EPSILON := by
  rcases Piston.coef_a_cases e with h | h <;>
    rw [is_zero, Piston.divisor, h, EPSILON] <;> norm_num

/-- C3: the pure solver returns an invalid result exactly when the leading
coefficient is within EPSILON of zero or the discriminant is strictly
negative (the sign test on the discriminant is strict, with no epsilon),
and every rejection produces the one indistinguishable invalid value. -/
theorem claim_C3 (e : Piston.engine) :
    ((Piston.piston_position.calculate e).is_valid = false
      ↔ (|Piston.coef_a e| < EPSILON ∨ Piston.discriminant e < 0))
    ∧ ((Piston.piston_position.calculate e).is_valid = false →
        Piston.piston_position.calculate e = Piston.piston_position.invalid) := by
  have key : (Piston.piston_position.calculate e).is_valid = false
      ↔ (is_zero (Piston.divisor e) ∨ Piston.discriminant e < 0) := by
    rw [Piston.piston_position.calculate]
    split_ifs with h1 h2
    · simp [Piston.piston_position.invalid, h1]
    · simp [Piston.piston_position.invalid, h2]
    · simp [Piston.piston_position.valid, h1, h2]
  constructor
  · rw [key, Piston.zero_test_iff]
  · intro hinv
    rw [key] at hinv
    rw [Piston.piston_position.calculate]
    split_ifs with h1 h2
    · rfl
    · rfl
    · exact absurd hinv (by tauto)

/-- Coefficient values for a vertical cylinder through the world origin. -/
lemma Piston.coefs_vertical (r α L c : ℝ) (hc : 0 < c) :
    Piston.coef_a ⟨⟨r, α⟩, ⟨⟨0, 0⟩, ⟨0, c⟩⟩, L⟩ = 1
    ∧ Piston.coef_b ⟨⟨r, α⟩, ⟨⟨0, 0⟩, ⟨0, c⟩⟩, L⟩ = -(2 * r * Real.sin α)
    ∧ Piston.coef_c ⟨⟨r, α⟩, ⟨⟨0, 0⟩, ⟨0, c⟩⟩, L⟩ = -(L ^ 2) + r ^ 2 := by
  have hn := vec2.normalize_vert c hc
  refine ⟨?_, ?_, ?_⟩ <;>
    simp [Piston.coef_a, Piston.coef_b, Piston.coef_c, square, hn] <;> ring

/-- Concrete engine from the specification: crank radius 50, rod length 10,
origin (0, 0), direction (0, 1), angle 0. -/
def e9 : Piston.engine := ⟨⟨50, 0⟩, ⟨⟨0, 0⟩, ⟨0, 1⟩⟩, 10⟩

/-- The discriminant at e9 is -9600. -/
lemma e9_disc : Piston.discriminant e9 = -9600 := by
  obtain ⟨ha, hb, hc⟩ := Piston.coefs_vertical 50 0 10 1 one_pos
  show Piston.discriminant ⟨⟨50, 0⟩, ⟨⟨0, 0⟩, ⟨0, 1⟩⟩, 10⟩ = -9600
  rw [Piston.discriminant, ha, hb, hc]
  norm_num [square]

/-- The divisor at e9 is not within EPSILON of zero. -/
lemma e9_div : ¬ is_zero (Piston.divisor e9) := by
  obtain ⟨ha, hb, hc⟩ := Piston.coefs_vertical 50 0 10 1 one_pos
  show ¬ is_zero (Piston.divisor ⟨⟨50, 0⟩, ⟨⟨0, 0⟩, ⟨0, 1⟩⟩, 10⟩)
  rw [Piston.divisor, ha, is_zero, EPSILON]
  norm_num

/-- C9: with crank radius 50, rod length 10, origin (0,0), direction (0,1)
and angle 0, the discriminant is negative and the solver returns invalid. -/
theorem claim_C9 :
    Piston.discriminant e9 < 0
    ∧ Piston.piston_position.calculate e9 = Piston.piston_position.invalid := by
  have h2 : Piston.discriminant e9 < 0 := by rw [e9_disc]; norm_num
  exact ⟨h2, by rw [Piston.piston_position.calculate, if_neg e9_div, if_pos h2]⟩

/-- C3 witness: the equivalence instantiated at the concrete engine e9,
whose discriminant is negative. -/
theorem claim_C3_witness :
    (Piston.piston_position.calculate e9).is_valid = false
    ∧ Piston.piston_position.calculate e9 = Piston.piston_position.invalid := by
  have hd : |Piston.coef_a e9| < EPSILON ∨ Piston.discriminant e9 < 0 :=
    Or.inr (by rw [e9_disc]; norm_num)
  have h := (claim_C3 e9).1.mpr hd
  exact ⟨h, (claim_C3 e9).2 h⟩

/-- Concrete engine with zero crank radius and a cylinder origin away from
the crank center: radius 0, angle 0, origin (0, 5), direction (0, 1),
rod length 10. -/
def e7 : Piston.engine := ⟨⟨0, 0⟩, ⟨⟨0, 5⟩, ⟨0, 1⟩⟩, 10⟩

/-- Coefficient values at e7. -/
lemma e7_coefs :
    Piston.coef_a e7 = 1 ∧ Piston.coef_b e7 = 10 ∧ Piston.coef_c e7 = -75 := by
  have hn := vec2.normalize_vert 1 one_pos
  refine ⟨?_, ?_, ?_⟩ <;>
    simp [Piston.coef_a, Piston.coef_b, Piston.coef_c, square, e7, hn] <;> norm_num

/-- The pure solver at e7 returns the valid position (0, 10). -/
lemma e7_calc :
    Piston.piston_position.calculate e7 = Piston.piston_position.valid (vec2.mk 0 10) := by
  obtain ⟨ha, hb, hc⟩ := e7_coefs
  have hdisc : Piston.discriminant e7 = 400 := by
    rw [Piston.discriminant, ha, hb, hc]
    norm_num [square]
  have h1 : ¬ is_zero (Piston.divisor e7) := by
    rw [Piston.divisor, ha, is_zero, EPSILON]
    norm_num
  have h2 : ¬ Piston.discriminant e7 < 0 := by
    rw [hdisc]
    norm_num
  have hsqrt : Real.sqrt (Piston.discriminant e7) = 20 := by
    rw [hdisc, show (400:ℝ) = 20 ^ 2 by norm_num, Real.sqrt_sq (by norm_num : (0:ℝ) ≤ 20)]
  have ht : Piston.root_t e7 = 5 := by
    rw [Piston.root_t, Piston.divisor, ha, hb, hsqrt]
    norm_num
  rw [Piston.piston_position.calculate, if_neg h1, if_neg h2, ht]
  have hn := vec2.normalize_vert 1 one_pos
  norm_num [e7, hn, vec2.add, vec2.smul, Piston.piston_position.valid, vec2.mk.injEq]

/-- C7 counterexample: at e7 the crank radius is 0, the rod length is
positive and the direction is nonzero, yet the valid result (0, 10) is not
origin + L * normalize(direction) = (0, 15). -/
theorem claim_C7_counterexample :
    e7.crank.crank_radius = 0
    ∧ 0 < e7.connecting_rod_length
    ∧ e7.cylinder.direction ≠ vec2.mk 0 0
    ∧ Piston.piston_position.calculate e7
        ≠ Piston.piston_position.valid
            (vec2.add e7.cylinder.origin
              (vec2.smul (vec2.normalize e7.cylinder.direction)
                e7.connecting_rod_length)) := by
  refine ⟨rfl, by norm_num [e7], by simp [e7, vec2.mk.injEq], ?_⟩
  rw [e7_calc]
  have hn := vec2.normalize_vert 1 one_pos
  intro h
  norm_num [e7, hn, vec2.add, vec2.smul, Piston.piston_position.valid,
    Piston.piston_position.mk.injEq, vec2.mk.injEq] at h

/-- C7 amended: when the crank radius is 0 and the cylinder origin is the
crank center (0, 0), the solver returns, for every angle, every nonzero
direction and every positive rod length, the valid position
origin + L * normalize(direction). -/
theorem claim_C7 (α L : ℝ) (D : vec2) (hD : D ≠ vec2.mk 0 0) (hL : 0 < L) :
    Piston.piston_position.calculate ⟨⟨0, α⟩, ⟨⟨0, 0⟩, D⟩, L⟩
      = Piston.piston_position.valid
          (vec2.add (vec2.mk 0 0) (vec2.smul (vec2.normalize D) L)) := by
  set e : Piston.engine := ⟨⟨0, α⟩, ⟨⟨0, 0⟩, D⟩, L⟩ with he
  have ha : Piston.coef_a e = 1 := Piston.coef_a_eq_one e hD
  have hb : Piston.coef_b e = 0 := by
    simp [Piston.coef_b, he]
  have hc : Piston.coef_c e = -(L * L) := by
    simp [Piston.coef_c, square, he]
  have hdisc : Piston.discriminant e = (2 * L) ^ 2 := by
    rw [Piston.discriminant, ha, hb, hc]
    simp [square]
    ring
  have h1 : ¬ is_zero (Piston.divisor e) := by
    rw [Piston.divisor, ha, is_zero, EPSILON]
    norm_num
  have h2 : ¬ Piston.discriminant e < 0 := by
    rw [hdisc, not_lt]
    positivity
  have hsqrt : Real.sqrt (Piston.discriminant e) = 2 * L := by
    rw [hdisc, Real.sqrt_sq (by linarith)]
  have ht : Piston.root_t e = L := by
    rw [Piston.root_t, Piston.divisor, ha, hb, hsqrt]
    norm_num
  rw [Piston.piston_position.calculate, if_neg h1, if_neg h2, ht]

/-- C7 witness: the amended statement at angle 0, direction (0, 1) and rod
length 10. -/
theorem claim_C7_witness :
    Piston.piston_position.calculate ⟨⟨0, 0⟩, ⟨⟨0, 0⟩, ⟨0, 1⟩⟩, 10⟩
      = Piston.piston_position.valid
          (vec2.add (vec2.mk 0 0) (vec2.smul (vec2.normalize (vec2.mk 0 1)) 10)) :=
  claim_C7 0 10 (vec2.mk 0 1) (by simp [vec2.mk.injEq]) (by norm_num)

/-- Concrete engine of the specification scenario at angle 0: crank radius
50, rod length 100, origin (0, 0), direction (0, 20). -/
def e8a : Piston.engine := ⟨⟨50, 0⟩, ⟨⟨0, 0⟩, ⟨0, 20⟩⟩, 100⟩

/-- The same scenario at angle pi. -/
def e8b : Piston.engine := ⟨⟨50, Real.pi⟩, ⟨⟨0, 0⟩, ⟨0, 20⟩⟩, 100⟩

/-- Shared evaluation for both C8 scenarios: with a vertical unit axis
through the origin, zero linear coefficient, rod length 100 and radius 50,
the solver returns the valid position (0, 50 * sqrt 3). -/
lemma calc_vert_sqrt3 (e : Piston.engine)
    (ha : Piston.coef_a e = 1) (hb : Piston.coef_b e = 0)
    (hc : Piston.coef_c e = -7500)
    (ho : e.cylinder.origin = vec2.mk 0 0)
    (hn : vec2.normalize e.cylinder.direction = vec2.mk 0 1) :
    Piston.piston_position.calculate e
      = Piston.piston_position.valid (vec2.mk 0 (50 * Real.sqrt 3)) := by
  have hdisc : Piston.discriminant e = 30000 := by
    rw [Piston.discriminant, ha, hb, hc]
    norm_num [square]
  have h1 : ¬ is_zero (Piston.divisor e) := by
    rw [Piston.divisor, ha, is_zero, EPSILON]
    norm_num
  have h2 : ¬ Piston.discriminant e < 0 := by
    rw [hdisc]
    norm_num
  have hsqrt : Real.sqrt (Piston.discriminant e) = 100 * Real.sqrt 3 := by
    rw [hdisc, show (30000:ℝ) = 100 ^ 2 * 3 by norm_num,
      Real.sqrt_mul (by positivity) 3, Real.sqrt_sq (by norm_num : (0:ℝ) ≤ 100)]
  have ht : Piston.root_t e = 50 * Real.sqrt 3 := by
    rw [Piston.root_t, Piston.divisor, ha, hb, hsqrt]
    ring
  rw [Piston.piston_position.calculate, if_neg h1, if_neg h2, ht, ho, hn]
  norm_num [vec2.add, vec2.smul, Piston.piston_position.valid, vec2.mk.injEq]

/-- C8: in the specification scenario (radius 50, rod 100, vertical axis
through the origin), both at angle 0 and at angle pi the solver returns the
valid position (0, 50 * sqrt 3); that point is at distance exactly 100 from
the crankpin (50, 0), respectively (-50, 0), and its height is within 0.01
of 86.60. -/
theorem claim_C8 :
    Piston.piston_position.calculate e8a
      = Piston.piston_position.valid (vec2.mk 0 (50 * Real.sqrt 3))
    ∧ Piston.piston_position.calculate e8b
      = Piston.piston_position.valid (vec2.mk 0 (50 * Real.sqrt 3))
    ∧ vec2.length (vec2.sub (vec2.mk 0 (50 * Real.sqrt 3)) (vec2.mk 50 0)) = 100
    ∧ vec2.length (vec2.sub (vec2.mk 0 (50 * Real.sqrt 3)) (vec2.mk (-50) 0)) = 100
    ∧ |50 * Real.sqrt 3 - 86.60| < 0.01 := by
  have h3 : Real.sqrt 3 ^ 2 = 3 := Real.sq_sqrt (by norm_num)
  have hn20 := vec2.normalize_vert 20 (by norm_num)
  obtain ⟨haa, hab, hac⟩ := Piston.coefs_vertical 50 0 100 20 (by norm_num)
  obtain ⟨hba, hbb, hbc⟩ := Piston.coefs_vertical 50 Real.pi 100 20 (by norm_num)
  refine ⟨?_, ?_, ?_, ?_, ?_⟩
  · refine calc_vert_sqrt3 e8a haa ?_ ?_ rfl hn20
    · rw [show Piston.coef_b e8a = -(2 * 50 * Real.sin 0) from hab, Real.sin_zero]
      ring
    · rw [show Piston.coef_c e8a = -(100 ^ 2) + 50 ^ 2 from hac]
      norm_num
  · refine calc_vert_sqrt3 e8b hba ?_ ?_ rfl hn20
    · rw [show Piston.coef_b e8b = -(2 * 50 * Real.sin Real.pi) from hbb, Real.sin_pi]
      ring
    · rw [show Piston.coef_c e8b = -(100 ^ 2) + 50 ^ 2 from hbc]
      norm_num
  · simp only [vec2.sub, vec2.length]
    apply sqrt_eq_of_eq_sq _ _ (by norm_num)
    linear_combination 2500 * h3
  · simp only [vec2.sub, vec2.length]
    apply sqrt_eq_of_eq_sq _ _ (by norm_num)
    linear_combination 2500 * h3
  · rw [abs_lt]
    constructor <;>
      nlinarith [h3, Real.sqrt_nonneg 3, sq_nonneg (Real.sqrt 3 - 1.732),
        sq_nonneg (Real.sqrt 3 - 1.7321)]

/-- Scaling a vector by a nonnegative factor scales its length. -/
lemma vec2.length_smul (v : vec2) (k : ℝ) (hk : 0 ≤ k) :
    vec2.length (vec2.smul v k) = k * vec2.length v := by
  simp only [vec2.smul, vec2.length]
  rw [show (v.x * k) ^ 2 + (v.y * k) ^ 2 = k ^ 2 * (v.x ^ 2 + v.y ^ 2) by ring,
    Real.sqrt_mul (by positivity) _, Real.sqrt_sq hk]

/-- Normalization is invariant under scaling by a positive factor. -/
lemma vec2.normalize_smul (v : vec2) (k : ℝ) (hk : 0 < k) :
    vec2.normalize (vec2.smul v k) = vec2.normalize v := by
  have hl := vec2.length_smul v k hk.le
  simp only [vec2.normalize, hl]
  simp only [vec2.smul, vec2.mk.injEq]
  constructor
  · rw [mul_comm v.x k]
    exact mul_div_mul_left v.x (vec2.length v) hk.ne'
  · rw [mul_comm v.y k]
    exact mul_div_mul_left v.y (vec2.length v) hk.ne'

/-- C5: the pure solver gives the same result when the direction vector is
scaled by any positive constant; only the direction matters. -/
theorem claim_C5 (e : Piston.engine) (k : ℝ) (hk : 0 < k) :
    Piston.piston_position.calculate
        ⟨e.crank, ⟨e.cylinder.origin, vec2.smul e.cylinder.direction k⟩,
          e.connecting_rod_length⟩
      = Piston.piston_position.calculate e := by
  set f : Piston.engine :=
    ⟨e.crank, ⟨e.cylinder.origin, vec2.smul e.cylinder.direction k⟩,
      e.connecting_rod_length⟩ with hf
  have hn : vec2.normalize f.cylinder.direction = vec2.normalize e.cylinder.direction :=
    vec2.normalize_smul e.cylinder.direction k hk
  have ha : Piston.coef_a f = Piston.coef_a e := by
    simp only [Piston.coef_a, hn]
  have hb : Piston.coef_b f = Piston.coef_b e := by
    simp only [Piston.coef_b, hn, hf]
  have hc : Piston.coef_c f = Piston.coef_c e := by
    simp only [Piston.coef_c, hf]
  have hdisc : Piston.discriminant f = Piston.discriminant e := by
    rw [Piston.discriminant, Piston.discriminant, ha, hb, hc]
  have hdiv : Piston.divisor f = Piston.divisor e := by
    rw [Piston.divisor, Piston.divisor, ha]
  have ht : Piston.root_t f = Piston.root_t e := by
    rw [Piston.root_t, Piston.root_t, hb, hdisc, hdiv]
  simp only [Piston.piston_position.calculate, hdisc, hdiv, ht, hn, hf]

/-- C5 witness: scaling the direction of the engine e1 by 2. -/
theorem claim_C5_witness :
    (0:ℝ) < 2
    ∧ Piston.piston_position.calculate
        ⟨e1.crank, ⟨e1.cylinder.origin, vec2.smul e1.cylinder.direction 2⟩,
          e1.connecting_rod_length⟩
      = Piston.piston_position.calculate e1 :=
  ⟨by norm_num, claim_C5 e1 2 (by norm_num)⟩

/-- C6: the pure solver is referentially transparent: two calls on inputs
that agree on every parameter (crank radius, angle, origin, direction, rod
length) return identical validity flags and identical position values. -/
theorem claim_C6 (e f : Piston.engine)
    (h1 : e.crank.crank_radius = f.crank.crank_radius)
    (h2 : e.crank.angle = f.crank.angle)
    (h3 : e.cylinder.origin = f.cylinder.origin)
    (h4 : e.cylinder.direction = f.cylinder.direction)
    (h5 : e.connecting_rod_length = f.connecting_rod_length) :
    (Piston.piston_position.calculate e).is_valid
      = (Piston.piston_position.calculate f).is_valid
    ∧ (Piston.piston_position.calculate e).value
      = (Piston.piston_position.calculate f).value := by
  have hef : e = f := by
    obtain ⟨⟨r1, a1⟩, ⟨o1, d1⟩, L1⟩ := e
    obtain ⟨⟨r2, a2⟩, ⟨o2, d2⟩, L2⟩ := f
    simp_all
  rw [hef]
  exact ⟨rfl, rfl⟩

/-- C6 witness: the guarantee instantiated with the engine e1 twice. -/
theorem claim_C6_witness :
    (Piston.piston_position.calculate e1).is_valid
      = (Piston.piston_position.calculate e1).is_valid
    ∧ (Piston.piston_position.calculate e1).value
      = (Piston.piston_position.calculate e1).value :=
  claim_C6 e1 e1 rfl rfl rfl rfl rfl

/-- C4: on any matching parameter snapshot, the stateful variant and the
pure solver agree: the stored exists flag equals the pure validity flag,
and when the flag is set the stored position equals the pure value. -/
theorem claim_C4 (s : Stateful.engine) (e : Piston.engine)
    (h1 : s.crankshaft.crank_radius = e.crank.crank_radius)
    (h2 : s.crankshaft.angle = e.crank.angle)
    (h3 : s.cylinder.origin = e.cylinder.origin)
    (h4 : s.cylinder.direction = e.cylinder.direction)
    (h5 : s.connecting_rod_length = e.connecting_rod_length) :
    s.calculate_positions.piston.exists_flag
      = (Piston.piston_position.calculate e).is_valid
    ∧ (s.calculate_positions.piston.exists_flag = true →
        s.calculate_positions.piston.position
          = (Piston.piston_position.calculate e).value) := by
  have ha : Stateful.coef_a s = Piston.coef_a e := by
    simp only [Stateful.coef_a, Piston.coef_a, h4]
  have hb : Stateful.coef_b s = Piston.coef_b e := by
    simp only [Stateful.coef_b, Piston.coef_b, h1, h2, h3, h4]
    ring
  have hc : Stateful.coef_c s = Piston.coef_c e := by
    simp only [Stateful.coef_c, Piston.coef_c, h1, h2, h3, h5]
    ring
  have hdisc : Stateful.discriminant s = Piston.discriminant e := by
    rw [Stateful.discriminant, Piston.discriminant, ha, hb, hc]
  have hdiv : Stateful.divisor s = Piston.divisor e := by
    rw [Stateful.divisor, Piston.divisor, ha]
  have ht : Stateful.root_t s = Piston.root_t e := by
    rw [Stateful.root_t, Piston.root_t, hb, hdisc, hdiv]
  simp only [Stateful.engine.calculate_positions, Piston.piston_position.calculate,
    hdisc, hdiv, ht, h3, h4]
  split_ifs with hz hd
  · exact ⟨rfl, fun h => absurd h (by norm_num)⟩
  · exact ⟨rfl, fun h => absurd h (by norm_num)⟩
  · exact ⟨rfl, fun _ => rfl⟩

/-- Concrete stateful engine matching the pure witness engine e1. -/
def s4 : Stateful.engine := ⟨⟨50, ⟨0, 0⟩, 0⟩, ⟨⟨0, 0⟩, ⟨0, 1⟩⟩, ⟨⟨0, 0⟩, false⟩, 100⟩

/-- C4 witness: the stateful and pure results coincide on the matching
snapshots s4 and e1. -/
theorem claim_C4_witness :
    s4.calculate_positions.piston.exists_flag
      = (Piston.piston_position.calculate e1).is_valid
    ∧ (s4.calculate_positions.piston.exists_flag = true →
        s4.calculate_positions.piston.position
          = (Piston.piston_position.calculate e1).value) :=
  claim_C4 s4 e1 rfl rfl rfl rfl rfl

/-- C10: whenever the stateful variant rejects (near-zero divisor or
negative discriminant), it clears the exists flag and leaves the stored
piston position exactly as it was before the call; the position field is
only assigned on the valid path. -/
theorem claim_C10 (s : Stateful.engine)
    (h : is_zero (Stateful.divisor s) ∨ Stateful.discriminant s < 0) :
    s.calculate_positions.piston.exists_flag = false
    ∧ s.calculate_positions.piston.position = s.piston.position := by
  simp only [Stateful.engine.calculate_positions]
  rcases h with h | h
  · rw [if_pos h]
    exact ⟨rfl, rfl⟩
  · by_cases hz : is_zero (Stateful.divisor s)
    · rw [if_pos hz]
      exact ⟨rfl, rfl⟩
    · rw [if_neg hz, if_pos h]
      exact ⟨rfl, rfl⟩

/-- Concrete rejecting stateful engine: rod 10 is shorter than crank 50,
with a stale piston position (7, 9) stored from before. -/
def s10 : Stateful.engine := ⟨⟨50, ⟨0, 0⟩, 0⟩, ⟨⟨0, 0⟩, ⟨0, 1⟩⟩, ⟨⟨7, 9⟩, true⟩, 10⟩

/-- The stateful discriminant at s10 is negative. -/
lemma s10_disc : Stateful.discriminant s10 < 0 := by
  have hn := vec2.normalize_vert 1 one_pos
  have ha : Stateful.coef_a s10 = 1 := by
    simp [Stateful.coef_a, s10, hn, square]
  have hb : Stateful.coef_b s10 = 0 := by
    simp [Stateful.coef_b, s10, hn, Real.sin_zero, Real.cos_zero]
  have hc : Stateful.coef_c s10 = 2400 := by
    simp [Stateful.coef_c, s10, square, Real.sin_zero, Real.cos_zero]
    norm_num
  rw [Stateful.discriminant, ha, hb, hc]
  norm_num [square]

/-- C10 witness: the rejecting stateful engine s10 keeps its stale stored
position (7, 9) while its exists flag is cleared. -/
theorem claim_C10_witness :
    (is_zero (Stateful.divisor s10) ∨ Stateful.discriminant s10 < 0)
    ∧ s10.calculate_positions.piston.exists_flag = false
    ∧ s10.calculate_positions.piston.position = s10.piston.position :=
  ⟨Or.inr s10_disc, (claim_C10 s10 (Or.inr s10_disc)).1,
    (claim_C10 s10 (Or.inr s10_disc)).2⟩
